import Mathlib

/-!
Verification of the CreatorShelf short-link redirect and scan-analytics
service: shallow embedding of the redirect handler, user-agent classifier,
IP anonymizer, short-code generator, uniqueness retry loop, and analytics
aggregator, with theorems settling the specified behaviours.

JavaScript strings are modelled as Lean `String`; all operations on them
are defined over the underlying `List Char` so that they evaluate by
kernel reduction. Nullable fields are `Option`; JS truthiness of a
nullable string (null and the empty string are falsy) is `strTruthy`.
-/

namespace CreatorShelf

/-- Boolean prefix test on character lists (building block for the
case-insensitive substring test used by the regex checks). -/
def isPrefixOfCL : List Char → List Char → Bool
  | [], _ => true
  | _ :: _, [] => false
  | a :: as, b :: bs => a == b && isPrefixOfCL as bs

/-- Boolean infix (substring) test on character lists. -/
def isInfixCL (pat : List Char) : List Char → Bool
  | [] => isPrefixOfCL pat []
  | c :: cs => isPrefixOfCL pat (c :: cs) || isInfixCL pat cs

/-- Case-insensitive substring containment: the meaning of the
case-insensitive regex tests `/pat/i.test(hay)` in the source, for the
plain-word patterns the source uses. -/
def containsCI (hay pat : String) : Bool :=
  isInfixCL (pat.data.map Char.toLower) (hay.data.map Char.toLower)

/-- Result record of `parseUserAgent`, mirroring the source's
`{ device_type, os }` object. -/
structure UAInfo where
  device_type : String
  os : String
deriving DecidableEq, Repr

/-- Embedding of `parseUserAgent` (src/unnamed/part_012): ordered
case-insensitive checks iPhone, iPad, Android (Mobile token decides
Mobile vs Tablet), Windows, Macintosh, Linux, with Unknown fallback. -/
def parseUserAgent (ua : String) : UAInfo :=
  if containsCI ua "iPhone" then ⟨"Mobile", "iOS"⟩
  else if containsCI ua "iPad" then ⟨"Tablet", "iOS"⟩
  else if containsCI ua "Android" then
    ⟨if containsCI ua "Mobile" then "Mobile" else "Tablet", "Android"⟩
  else if containsCI ua "Windows" then ⟨"Desktop", "Windows"⟩
  else if containsCI ua "Macintosh" then ⟨"Desktop", "macOS"⟩
  else if containsCI ua "Linux" then ⟨"Desktop", "Linux"⟩
  else ⟨"Unknown", "Unknown"⟩

/-- The classifier as the spec words it: an ordered rule list, where each
rule pairs a pattern with the result it produces (the Android rule
consults the UA again for the Mobile token). -/
def claimRules : List (String × (String → UAInfo)) :=
  [("iPhone", fun _ => ⟨"Mobile", "iOS"⟩),
   ("iPad", fun _ => ⟨"Tablet", "iOS"⟩),
   ("Android", fun ua => ⟨if containsCI ua "Mobile" then "Mobile" else "Tablet", "Android"⟩),
   ("Windows", fun _ => ⟨"Desktop", "Windows"⟩),
   ("Macintosh", fun _ => ⟨"Desktop", "macOS"⟩),
   ("Linux", fun _ => ⟨"Desktop", "Linux"⟩)]

/-- First-matching-rule semantics over `claimRules`, with the Unknown
fallback when no rule matches. -/
def classifySpec (ua : String) : UAInfo :=
  match claimRules.find? (fun r => containsCI ua r.1) with
  | some r => r.2 ua
  | none => ⟨"Unknown", "Unknown"⟩

/-- C5: the classifier implements first-matching-rule semantics over the
ordered rule list iPhone, iPad, Android (Mobile token), Windows,
Macintosh, Linux with Unknown fallback; in particular a UA containing
both iPad and Macintosh is classified (Tablet, iOS). -/
theorem C5_classifier_first_match :
    (∀ ua : String, parseUserAgent ua = classifySpec ua) ∧
    parseUserAgent "Mozilla/5.0 (iPad; like Macintosh)" = ⟨"Tablet", "iOS"⟩ := by
  constructor
  · intro ua
    simp only [classifySpec, claimRules, List.find?, parseUserAgent]
    by_cases h1 : containsCI ua "iPhone" <;> simp [h1] <;>
      by_cases h2 : containsCI ua "iPad" <;> simp [h2] <;>
        by_cases h3 : containsCI ua "Android" <;> simp [h3] <;>
          by_cases h4 : containsCI ua "Windows" <;> simp [h4] <;>
            by_cases h5 : containsCI ua "Macintosh" <;> simp [h5] <;>
              by_cases h6 : containsCI ua "Linux" <;> simp [h6]
  · decide

/-- The fixed application-level salt appended to the IP before hashing. -/
def SALT : String := "creatorshelf-salt"

/-- The sixteen lowercase hexadecimal digit characters. -/
def hexDigitChars : List Char := "0123456789abcdef".data

/-- Lowercase hexadecimal digit for a value below 16. -/
def hexDigit (n : Nat) : Char := hexDigitChars.getD n 'x'

/-- Two-digit lowercase hex rendering of one byte: the source's
`b.toString(16).padStart(2, "0")`. -/
def hexByte (b : Fin 256) : List Char := [hexDigit (b.val / 16), hexDigit (b.val % 16)]

/-- Hex rendering of a byte sequence (the source's map-and-join). -/
def hexOfBytes (bs : List (Fin 256)) : List Char := (bs.map hexByte).flatten

/-- Embedding of `hashIp` (src/unnamed/part_012). The platform digest
primitive `crypto.subtle.digest("SHA-256", ...)` is modelled as an
abstract oracle `digest` mapping the salted input string to an optional
byte sequence; `none` models the try/catch firing, in which case the
sentinel "unknown" is returned. -/
def hashIp (digest : String → Option (List (Fin 256))) (ip : String) : String :=
  match digest (ip ++ SALT) with
  | some bytes => String.mk ((hexOfBytes bytes).take 16)
  | none => "unknown"

/-- Every hex digit of a value below 16 is a lowercase hex character. -/
theorem hexDigit_mem (n : Nat) (h : n < 16) : hexDigit n ∈ hexDigitChars := by
  interval_cases n <;> decide

/-- Every character of a hex-rendered byte string is a lowercase hex
character. -/
theorem hexOfBytes_mem (bs : List (Fin 256)) :
    ∀ c ∈ hexOfBytes bs, c ∈ hexDigitChars := by
  intro c hc
  simp only [hexOfBytes, List.mem_flatten, List.mem_map] at hc
  obtain ⟨l, ⟨b, _, rfl⟩, hcl⟩ := hc
  simp only [hexByte, List.mem_cons, List.not_mem_nil, or_false] at hcl
  rcases hcl with rfl | rfl
  · exact hexDigit_mem _ (Nat.div_lt_of_lt_mul (by omega))
  · exact hexDigit_mem _ (Nat.mod_lt _ (by omega))

/-- Unfolding equation: hex rendering of a cons. -/
theorem hexOfBytes_cons (b : Fin 256) (bs : List (Fin 256)) :
    hexOfBytes (b :: bs) = hexByte b ++ hexOfBytes bs := rfl

/-- The hex rendering of a byte list has two characters per byte. -/
theorem hexOfBytes_length (bs : List (Fin 256)) :
    (hexOfBytes bs).length = 2 * bs.length := by
  induction bs with
  | nil => rfl
  | cons b bs ih =>
    rw [hexOfBytes_cons, List.length_append, ih]
    simp only [hexByte, List.length_cons, List.length_nil, List.length_cons]
    omega

/-- C7: the anonymizer is a pure function (determinism); whenever the
digest oracle yields bytes for the salted input, the result is the first
16 characters of the lowercase hex rendering of those bytes, every
character of the result is a lowercase hex digit, and for a 256-bit
(32-byte) digest the result has exactly 16 characters; when the digest
oracle fails, the result is the sentinel "unknown"; being total, the
function never raises. -/
theorem C7_hashIp_spec (digest : String → Option (List (Fin 256))) (ip : String) :
    (hashIp digest ip = hashIp digest ip) ∧
    (∀ bs, digest (ip ++ SALT) = some bs →
      hashIp digest ip = String.mk ((hexOfBytes bs).take 16) ∧
      (∀ c ∈ (hashIp digest ip).data, c ∈ hexDigitChars) ∧
      (bs.length = 32 → (hashIp digest ip).length = 16)) ∧
    (digest (ip ++ SALT) = none → hashIp digest ip = "unknown") := by
  refine ⟨rfl, ?_, ?_⟩
  · intro bs hbs
    have hh : hashIp digest ip = String.mk ((hexOfBytes bs).take 16) := by
      simp [hashIp, hbs]
    refine ⟨hh, ?_, ?_⟩
    · intro c hc
      rw [hh] at hc
      exact hexOfBytes_mem bs c (List.mem_of_mem_take hc)
    · intro h32
      rw [hh]
      show ((hexOfBytes bs).take 16).length = 16
      rw [List.length_take, hexOfBytes_length, h32]
      omega
  · intro hnone
    simp [hashIp, hnone]

/-- A concrete digest oracle that always yields 32 zero bytes. -/
def zeroDigest : String → Option (List (Fin 256)) := fun _ => some (List.replicate 32 0)

/-- Witness for C7 at a concrete digest oracle and input. -/
theorem C7_hashIp_spec_witness :
    zeroDigest ("1.2.3.4" ++ SALT) = some (List.replicate 32 (0 : Fin 256)) ∧
    (hashIp zeroDigest "1.2.3.4").length = 16 := by
  refine ⟨rfl, ?_⟩
  exact ((C7_hashIp_spec zeroDigest "1.2.3.4").2.1 _ rfl).2.2 (by simp)

/-- Embedding of `CHARS` (src/lib/short-code.ts): the fixed short-code
alphabet. -/
def CHARS : String := "ABCDEFGHJKLMNPQRSTUVWXYZabcdefghjkmnpqrstuvwxyz23456789"

/-- Embedding of `generateShortCode` (src/lib/short-code.ts). The call
`Math.floor(Math.random() * CHARS.length)` yields an index below the
alphabet length, modelled by the random source `rand` giving the index
drawn at each loop iteration; the loop appends `CHARS.charAt` of that
index for each position. -/
def generateShortCode (rand : Nat → Fin CHARS.data.length) (length : Nat := 8) : String :=
  String.mk ((List.range length).map (fun i => CHARS.data.get (rand i)))

/-- Embedding of the `while (attempts < 10)` loop of
`ensureUniqueShortCode`: `fuel` is the remaining attempt budget,
`attempt` the index of the next candidate, `existsInDB` the per-candidate
existence lookup (`maybeSingle` returning a row), `gen8` the stream of
8-character candidates and `gen12` the 12-character fallback. Returns
the chosen code together with the number of existence lookups made. -/
def euLoop (existsInDB : String → Bool) (gen8 : Nat → String) (gen12 : String) :
    Nat → Nat → String × Nat
  | _, 0 => (gen12, 0)
  | attempt, fuel + 1 =>
    let c := gen8 attempt
    if existsInDB c then
      let r := euLoop existsInDB gen8 gen12 (attempt + 1) fuel
      (r.1, r.2 + 1)
    else (c, 1)

/-- Embedding of `ensureUniqueShortCode` (spark-codes API): run the
retry loop from attempt 0 with a budget of 10. -/
def ensureUniqueShortCode (existsInDB : String → Bool) (gen8 : Nat → String)
    (gen12 : String) : String × Nat :=
  euLoop existsInDB gen8 gen12 0 10

/-- Characterization of the retry loop: at most `fuel` lookups; if some
candidate within the budget is free, the result is the first free
candidate (checked, hence free); if all candidates collide, the result
is the unchecked fallback after exactly `fuel` lookups. -/
theorem euLoop_spec (existsInDB : String → Bool) (gen8 : Nat → String) (gen12 : String) :
    ∀ fuel attempt,
      (euLoop existsInDB gen8 gen12 attempt fuel).2 ≤ fuel ∧
      ((∃ k, k < fuel ∧ existsInDB (gen8 (attempt + k)) = false) →
        ∃ k, k < fuel ∧ existsInDB (gen8 (attempt + k)) = false ∧
          (∀ j, j < k → existsInDB (gen8 (attempt + j)) = true) ∧
          (euLoop existsInDB gen8 gen12 attempt fuel).1 = gen8 (attempt + k)) ∧
      ((∀ k, k < fuel → existsInDB (gen8 (attempt + k)) = true) →
        euLoop existsInDB gen8 gen12 attempt fuel = (gen12, fuel)) := by
  intro fuel
  induction fuel with
  | zero =>
    intro attempt
    refine ⟨Nat.le_refl 0, ?_, ?_⟩
    · rintro ⟨k, hk, _⟩
      omega
    · intro _
      rfl
  | succ n ih =>
    intro attempt
    by_cases h : existsInDB (gen8 attempt)
    · obtain ⟨ihle, ihsome, ihall⟩ := ih (attempt + 1)
      have hstep : euLoop existsInDB gen8 gen12 attempt (n + 1)
          = ((euLoop existsInDB gen8 gen12 (attempt + 1) n).1,
             (euLoop existsInDB gen8 gen12 (attempt + 1) n).2 + 1) := by
        simp [euLoop, h]
      refine ⟨?_, ?_, ?_⟩
      · rw [hstep]
        exact Nat.succ_le_succ ihle
      · rintro ⟨k, hk, hkfree⟩
        have hk0 : k ≠ 0 := by
          intro h0
          rw [h0, Nat.add_zero] at hkfree
          rw [h] at hkfree
          exact Bool.noConfusion hkfree
        obtain ⟨k1, rfl⟩ : ∃ k1, k = k1 + 1 := ⟨k - 1, by omega⟩
        have hshift : attempt + (k1 + 1) = (attempt + 1) + k1 := by omega
        obtain ⟨m, hm, hmfree, hmmin, hmres⟩ :=
          ihsome ⟨k1, by omega, by rw [← hshift]; exact hkfree⟩
        refine ⟨m + 1, by omega, ?_, ?_, ?_⟩
        · rw [show attempt + (m + 1) = (attempt + 1) + m by omega]
          exact hmfree
        · intro j hj
          cases j with
          | zero => simpa using h
          | succ j1 =>
            rw [show attempt + (j1 + 1) = (attempt + 1) + j1 by omega]
            exact hmmin j1 (by omega)
        · rw [hstep]
          rw [show attempt + (m + 1) = (attempt + 1) + m by omega]
          exact hmres
      · intro hall
        have hall1 : ∀ k, k < n → existsInDB (gen8 ((attempt + 1) + k)) = true := by
          intro k hk
          rw [show (attempt + 1) + k = attempt + (k + 1) by omega]
          exact hall (k + 1) (by omega)
        have := ihall hall1
        rw [hstep, this]
    · have hstep : euLoop existsInDB gen8 gen12 attempt (n + 1) = (gen8 attempt, 1) := by
        simp [euLoop, h]
      refine ⟨?_, ?_, ?_⟩
      · rw [hstep]
        omega
      · intro _
        refine ⟨0, by omega, ?_, ?_, ?_⟩
        · simpa using Bool.of_not_eq_true h
        · intro j hj
          omega
        · rw [hstep, Nat.add_zero]
      · intro hall
        have := hall 0 (by omega)
        rw [Nat.add_zero] at this
        rw [this] at h
        exact absurd rfl h

/-- Every generated code has exactly the requested length. -/
theorem generateShortCode_length (rand : Nat → Fin CHARS.data.length) (len : Nat) :
    (generateShortCode rand len).length = len := by
  show ((List.range len).map (fun i => CHARS.data.get (rand i))).length = len
  rw [List.length_map, List.length_range]

/-- Every character of a generated code is drawn from the alphabet. -/
theorem generateShortCode_mem_chars (rand : Nat → Fin CHARS.data.length) (len : Nat) :
    ∀ c ∈ (generateShortCode rand len).data, c ∈ CHARS.data := by
  intro c hc
  have hc2 : c ∈ (List.range len).map (fun i => CHARS.data.get (rand i)) := hc
  obtain ⟨i, _, rfl⟩ := List.mem_map.mp hc2
  exact List.get_mem _ _ _

/-- C9 counterexample: the fixed alphabet has 55 characters, not 56 as
the claim states. -/
theorem C9_alphabet_size_counterexample :
    CHARS.data.length = 55 ∧ ¬ CHARS.data.length = 56 := by
  decide

/-- C9 (amended to the actual 55-character alphabet): every generated
code has exactly the requested length, every character is drawn from the
fixed alphabet, the alphabet has 55 characters, and it contains none of
the visually-confusable characters 0, O, 1, I, l. -/
theorem C9_generate_short_code (rand : Nat → Fin CHARS.data.length) (len : Nat) :
    (generateShortCode rand len).length = len ∧
    (∀ c ∈ (generateShortCode rand len).data, c ∈ CHARS.data) ∧
    CHARS.data.length = 55 ∧
    ('0' ∉ CHARS.data ∧ 'O' ∉ CHARS.data ∧ '1' ∉ CHARS.data ∧
     'I' ∉ CHARS.data ∧ 'l' ∉ CHARS.data) :=
  ⟨generateShortCode_length rand len, generateShortCode_mem_chars rand len,
    by decide, by decide⟩

/-- Random sources used as concrete instantiations in witnesses for the
short-code claims. -/
def constRand : Nat → Fin CHARS.data.length := fun _ => ⟨0, by decide⟩

/-- Per-attempt random sources, all constant. -/
def constRandSeq : Nat → Nat → Fin CHARS.data.length := fun _ => constRand

/-- C6: the uniqueness routine performs at most 10 existence lookups (one
per 8-character candidate); when some candidate within the budget is
free, it returns the first free candidate, which is therefore not an
existing code; when all 10 candidates collide, it returns the single
12-character fallback code unchecked after exactly 10 lookups; the loop
is bounded by this budget. -/
theorem C6_ensure_unique_short_code (existsInDB : String → Bool)
    (rs : Nat → Nat → Fin CHARS.data.length) (r12 : Nat → Fin CHARS.data.length) :
    (ensureUniqueShortCode existsInDB (fun i => generateShortCode (rs i))
      (generateShortCode r12 12)).2 ≤ 10 ∧
    (∀ i, (generateShortCode (rs i)).length = 8) ∧
    (generateShortCode r12 12).length = 12 ∧
    ((∃ k, k < 10 ∧ existsInDB (generateShortCode (rs k)) = false) →
      ∃ k, k < 10 ∧ (∀ j, j < k → existsInDB (generateShortCode (rs j)) = true) ∧
        (ensureUniqueShortCode existsInDB (fun i => generateShortCode (rs i))
          (generateShortCode r12 12)).1 = generateShortCode (rs k) ∧
        existsInDB (ensureUniqueShortCode existsInDB (fun i => generateShortCode (rs i))
          (generateShortCode r12 12)).1 = false) ∧
    ((∀ k, k < 10 → existsInDB (generateShortCode (rs k)) = true) →
      ensureUniqueShortCode existsInDB (fun i => generateShortCode (rs i))
        (generateShortCode r12 12) = (generateShortCode r12 12, 10)) := by
  obtain ⟨hle, hsome, hall⟩ :=
    euLoop_spec existsInDB (fun i => generateShortCode (rs i)) (generateShortCode r12 12) 10 0
  refine ⟨hle, fun i => generateShortCode_length (rs i) 8,
    generateShortCode_length r12 12, ?_, ?_⟩
  · rintro ⟨k, hk, hkfree⟩
    obtain ⟨m, hm, hmfree, hmmin, hmres⟩ := hsome ⟨k, hk, by simpa using hkfree⟩
    refine ⟨m, hm, ?_, ?_, ?_⟩
    · intro j hj
      simpa using hmmin j hj
    · simpa using hmres
    · show existsInDB (euLoop existsInDB (fun i => generateShortCode (rs i))
        (generateShortCode r12 12) 0 10).1 = false
      rw [hmres]
      simpa using hmfree
  · intro h
    exact hall (fun k hk => by simpa using h k hk)

/-- Witness for C6: with an empty persisted set every lookup reports the
candidate free, so the very first candidate is returned. -/
theorem C6_ensure_unique_short_code_witness :
    ∃ k, k < 10 ∧
      (∀ j, j < k → (fun _ : String => false) (generateShortCode (constRandSeq j)) = true) ∧
      (ensureUniqueShortCode (fun _ => false) (fun i => generateShortCode (constRandSeq i))
        (generateShortCode constRand 12)).1 = generateShortCode (constRandSeq k) ∧
      (fun _ : String => false)
        (ensureUniqueShortCode (fun _ => false) (fun i => generateShortCode (constRandSeq i))
          (generateShortCode constRand 12)).1 = false := by
  exact (C6_ensure_unique_short_code (fun _ => false) constRandSeq constRand).2.2.2.1
    ⟨0, by omega, rfl⟩

/-- Row of the spark_codes table, with the fields the redirect handler
reads. Nullable text columns are `Option String`; the expiry timestamp is
modelled as an `Option Int` instant on the shared wall-clock time line
(the source compares `new Date(expires_at) < new Date()` numerically). -/
structure SparkCodeRow where
  id : Nat
  short_code : String
  is_active : Bool
  destination_url : Option String
  deep_link_ios : Option String
  deep_link_android : Option String
  expires_at : Option Int
deriving DecidableEq, Repr

/-- The handler's lookup: `.eq("short_code", c).eq("is_active", true)`
followed by `.single()`, which yields a row only when exactly one row
matches. -/
def queryActiveLink (db : List SparkCodeRow) (code : String) : Option SparkCodeRow :=
  match db.filter (fun r => r.short_code == code && r.is_active) with
  | [r] => some r
  | _ => none

/-- JS truthiness of a nullable string: null and the empty string are
falsy. -/
def strTruthy : Option String → Bool
  | none => false
  | some s => !(s == "")

/-- Splitting a character list on a separator, with JS `split` semantics:
the result is never empty (splitting the empty string gives one empty
group). -/
def splitOnCharCL (sep : Char) : List Char → List (List Char)
  | [] => [[]]
  | c :: cs =>
    let rest := splitOnCharCL sep cs
    if c == sep then [] :: rest
    else match rest with
      | [] => [[c]]
      | g :: gs => (c :: g) :: gs

/-- Whitespace predicate used by trimming. -/
def isWsChar (c : Char) : Bool := c == ' ' || c == '\t' || c == '\n' || c == '\r'

/-- JS `trim` over a character list. -/
def trimCL (l : List Char) : List Char :=
  ((l.dropWhile isWsChar).reverse.dropWhile isWsChar).reverse

/-- Embedding of the client-IP selection: first comma-separated value of
x-forwarded-for trimmed, else x-real-ip, else "unknown". -/
def clientIp (xff xrip : Option String) : String :=
  match xff with
  | some s => String.mk (trimCL ((splitOnCharCL ',' s.data).headD []))
  | none =>
    match xrip with
    | some s => s
    | none => "unknown"

/-- The scan-event row the handler assembles and inserts. -/
structure ScanEventInsert where
  spark_code_id : Nat
  device_type : String
  os : String
  ip_hash : String
  country : Option String
  city : Option String
deriving DecidableEq, Repr

/-- The five response shapes of the redirect endpoint. -/
inductive RedirectResponse where
  | serviceUnavailable
  | notFound
  | expired
  | noDestination
  | redirect (url : String)
deriving DecidableEq, Repr

/-- HTTP status code of each response shape. -/
def statusOf : RedirectResponse → Nat
  | .serviceUnavailable => 503
  | .notFound => 404
  | .expired => 410
  | .noDestination => 404
  | .redirect _ => 302

/-- Location header of each response shape. -/
def locationOf : RedirectResponse → Option String
  | .redirect u => some u
  | _ => none

/-- Expiry test of the handler: a present expiry strictly before now. -/
def isExpired (row : SparkCodeRow) (now : Int) : Bool :=
  match row.expires_at with
  | some t => decide (t < now)
  | none => false

/-- Result of one run of the handler: the HTTP response, the scan-event
rows whose insert was attempted, and those actually persisted (empty
when the insert errored). -/
structure HandlerResult where
  response : RedirectResponse
  attempted : List ScanEventInsert
  persisted : List ScanEventInsert
deriving DecidableEq, Repr

/-- Value of the handler's `redirectUrl` variable after the reassignment
chain: starts as the generic destination and is replaced by the iOS or
Android deep link when the classified OS matches and the deep link is
truthy. -/
def chooseUrl (row : SparkCodeRow) (os : String) : Option String :=
  if os == "iOS" && strTruthy row.deep_link_ios then row.deep_link_ios
  else if os == "Android" && strTruthy row.deep_link_android then row.deep_link_android
  else row.destination_url

/-- Embedding of the `app.get("/r/:shortCode")` handler
(src/unnamed/part_012). `configured` models `getSupabaseAdmin()`
returning a client, `db` the spark_codes table, `digest` the digest
oracle of `hashIp`, `now` the wall clock at request time, and
`insertFails` whether the scan-event insert returns an error (which is
only logged). -/
def handleRedirect (configured : Bool) (db : List SparkCodeRow) (shortCode : String)
    (ua : String) (xff xrip : Option String)
    (digest : String → Option (List (Fin 256))) (now : Int)
    (insertFails : Bool) : HandlerResult :=
  if !configured then ⟨.serviceUnavailable, [], []⟩
  else
    match queryActiveLink db shortCode with
    | none => ⟨.notFound, [], []⟩
    | some row =>
      if isExpired row now then ⟨.expired, [], []⟩
      else
        let info := parseUserAgent ua
        let ip := clientIp xff xrip
        let ev : ScanEventInsert := ⟨row.id, info.device_type, info.os, hashIp digest ip, none, none⟩
        let persisted := if insertFails then [] else [ev]
        let redirectUrl : Option String := chooseUrl row info.os
        if !strTruthy redirectUrl then ⟨.noDestination, [ev], persisted⟩
        else ⟨.redirect (redirectUrl.getD ""), [ev], persisted⟩

/-- Destination selection exactly as the claim words it: an iOS deep
link for iOS when configured (non-empty), else an Android deep link for
Android when configured, else the generic destination URL; `none` when
none of the three yields a non-empty URL. -/
def specSelect (row : SparkCodeRow) (os : String) : Option String :=
  if os == "iOS" && strTruthy row.deep_link_ios then row.deep_link_ios
  else if os == "Android" && strTruthy row.deep_link_android then row.deep_link_android
  else if strTruthy row.destination_url then row.destination_url
  else none

/-- A nullable string is truthy exactly when it holds a non-empty
string. -/
theorem strTruthy_eq_true (o : Option String) :
    strTruthy o = true ↔ ∃ s, o = some s ∧ ¬(s = "") := by
  cases o with
  | none => simp [strTruthy]
  | some s => simp [strTruthy]

/-- Reduction of the handler once the store is configured, a unique
active row is found, and the link is not expired. -/
theorem handleRedirect_found (db : List SparkCodeRow) (sc ua : String)
    (xff xrip : Option String) (digest : String → Option (List (Fin 256)))
    (now : Int) (insertFails : Bool) (row : SparkCodeRow)
    (hrow : queryActiveLink db sc = some row)
    (hexp : isExpired row now = false) :
    handleRedirect true db sc ua xff xrip digest now insertFails =
      (let ev : ScanEventInsert := ⟨row.id, (parseUserAgent ua).device_type,
         (parseUserAgent ua).os, hashIp digest (clientIp xff xrip), none, none⟩
       let persisted : List ScanEventInsert := if insertFails then [] else [ev]
       if !strTruthy (chooseUrl row (parseUserAgent ua).os) then
         ⟨.noDestination, [ev], persisted⟩
       else ⟨.redirect ((chooseUrl row (parseUserAgent ua).os).getD ""), [ev], persisted⟩) := by
  simp only [handleRedirect, hrow, hexp, Bool.not_true, Bool.false_eq_true, if_false]

/-- C1: for a request that resolves to an active, non-expired link, the
destination is chosen with precedence iOS deep link (when the classified
OS is iOS and it is non-empty), then Android deep link (when the OS is
Android and it is non-empty), then the generic destination URL; a
non-empty chosen URL yields a 302 whose Location is that URL, and no
usable URL yields a 404. -/
theorem C1_redirect_precedence (db : List SparkCodeRow) (sc ua : String)
    (xff xrip : Option String) (digest : String → Option (List (Fin 256)))
    (now : Int) (insertFails : Bool) (row : SparkCodeRow)
    (hrow : queryActiveLink db sc = some row)
    (hexp : isExpired row now = false) :
    (∀ u, specSelect row (parseUserAgent ua).os = some u →
      (handleRedirect true db sc ua xff xrip digest now insertFails).response
        = RedirectResponse.redirect u ∧
      statusOf (handleRedirect true db sc ua xff xrip digest now insertFails).response = 302 ∧
      locationOf (handleRedirect true db sc ua xff xrip digest now insertFails).response = some u) ∧
    (specSelect row (parseUserAgent ua).os = none →
      (handleRedirect true db sc ua xff xrip digest now insertFails).response
        = RedirectResponse.noDestination ∧
      statusOf (handleRedirect true db sc ua xff xrip digest now insertFails).response = 404) := by
  rw [handleRedirect_found db sc ua xff xrip digest now insertFails row hrow hexp]
  by_cases h1 : ((parseUserAgent ua).os == "iOS" && strTruthy row.deep_link_ios) = true
  · have htr : strTruthy row.deep_link_ios = true := (Bool.and_eq_true _ _ ▸ h1).2
    simp only [specSelect, chooseUrl, h1, if_true]
    constructor
    · intro u hu
      rw [hu] at htr
      simp [hu, htr, statusOf, locationOf]
    · intro hnone
      rw [hnone] at htr
      exact absurd htr (by simp [strTruthy])
  · have h1f : ((parseUserAgent ua).os == "iOS" && strTruthy row.deep_link_ios) = false := by
      simpa using h1
    by_cases h2 : ((parseUserAgent ua).os == "Android" && strTruthy row.deep_link_android) = true
    · have htr : strTruthy row.deep_link_android = true := (Bool.and_eq_true _ _ ▸ h2).2
      simp only [specSelect, chooseUrl, h1f, h2, Bool.false_eq_true, if_false, if_true]
      constructor
      · intro u hu
        rw [hu] at htr
        simp [hu, htr, statusOf, locationOf]
      · intro hnone
        rw [hnone] at htr
        exact absurd htr (by simp [strTruthy])
    · have h2f : ((parseUserAgent ua).os == "Android" && strTruthy row.deep_link_android) = false := by
        simpa using h2
      simp only [specSelect, chooseUrl, h1f, h2f, Bool.false_eq_true, if_false]
      by_cases h3 : strTruthy row.destination_url = true
      · simp only [h3, if_true]
        constructor
        · intro u hu
          rw [hu] at h3
          simp [hu, h3, statusOf, locationOf]
        · intro hnone
          rw [hnone] at h3
          exact absurd h3 (by simp [strTruthy])
      · have h3f : strTruthy row.destination_url = false := by
          simpa using h3
        simp only [h3f, Bool.false_eq_true, if_false]
        constructor
        · intro u hu
          exact Option.noConfusion hu
        · intro _
          simp [h3f, statusOf]

/-- Link used in concrete runs: active, no expiry, generic destination
and an iOS deep link. -/
def exLink2 : SparkCodeRow :=
  ⟨1, "abc", true, some "https://a.example", some "app://x", none, none⟩

/-- Digest oracle that always fails, so the hash evaluates to the
sentinel. -/
def noDigest : String → Option (List (Fin 256)) := fun _ => none

/-- Witness for C1: an iOS user agent on a link with an iOS deep link is
redirected to the deep link. -/
theorem C1_redirect_precedence_witness :
    queryActiveLink [exLink2] "abc" = some exLink2 ∧
    isExpired exLink2 0 = false ∧
    specSelect exLink2 (parseUserAgent "iPhone").os = some "app://x" ∧
    (handleRedirect true [exLink2] "abc" "iPhone" none none noDigest 0 false).response
      = RedirectResponse.redirect "app://x" := by
  refine ⟨by decide, rfl, by decide, ?_⟩
  exact ((C1_redirect_precedence [exLink2] "abc" "iPhone" none none noDigest 0 false
    exLink2 (by decide) rfl).1 "app://x" (by decide)).1

/-- Link used in the C2 counterexample: active, no expiry, but no
destination URL and no deep links. -/
def exLinkNoDest : SparkCodeRow := ⟨1, "abc", true, none, none, none, none⟩

/-- Boolean condition under which the handler reaches the scan-recording
step: store configured, a unique active row found, and not expired. -/
def reachesRecording (configured : Bool) (db : List SparkCodeRow) (sc : String)
    (now : Int) : Bool :=
  configured &&
    (match queryActiveLink db sc with
     | some row => !isExpired row now
     | none => false)

/-- C2 counterexample: on an active, non-expired link with no usable
destination the handler persists a scan event even though the response
is a 404, not a 302 — so scan events are not persisted exactly when the
request ends in a redirect. -/
theorem C2_scan_event_counterexample :
    statusOf (handleRedirect true [exLinkNoDest] "abc" "x" none none noDigest 0 false).response
      = 404 ∧
    (handleRedirect true [exLinkNoDest] "abc" "x" none none noDigest 0 false).persisted.length
      = 1 := by
  decide

/-- C2 (amended): a scan-event insert is attempted exactly once per
request that reaches the recording step (store configured, active link
found, not expired) — in particular also when the request then ends in
the no-destination 404 — and never otherwise; the insert's failure is
swallowed: the response is the same whether the insert fails or
succeeds, the attempted row is persisted when the insert succeeds, and
nothing is persisted when it fails. -/
theorem C2_scan_event_recording (configured : Bool) (db : List SparkCodeRow)
    (sc ua : String) (xff xrip : Option String)
    (digest : String → Option (List (Fin 256))) (now : Int) :
    (∀ insertFails,
      (handleRedirect configured db sc ua xff xrip digest now insertFails).response
        = (handleRedirect configured db sc ua xff xrip digest now false).response) ∧
    ((handleRedirect configured db sc ua xff xrip digest now false).persisted
      = (handleRedirect configured db sc ua xff xrip digest now false).attempted) ∧
    ((handleRedirect configured db sc ua xff xrip digest now true).persisted = []) ∧
    (∀ insertFails,
      (handleRedirect configured db sc ua xff xrip digest now insertFails).attempted.length
        = if reachesRecording configured db sc now then 1 else 0) ∧
    (reachesRecording configured db sc now = true ↔
      configured = true ∧ ∃ row, queryActiveLink db sc = some row ∧ isExpired row now = false) := by
  refine ⟨?_, ?_, ?_, ?_, ?_⟩
  · intro insertFails
    cases configured with
    | false => rfl
    | true =>
      cases hq : queryActiveLink db sc with
      | none => simp [handleRedirect, hq]
      | some row =>
        by_cases he : isExpired row now = true
        · simp [handleRedirect, hq, he]
        · have hef : isExpired row now = false := by simpa using he
          rw [handleRedirect_found db sc ua xff xrip digest now insertFails row hq hef,
            handleRedirect_found db sc ua xff xrip digest now false row hq hef]
          by_cases hc : (!strTruthy (chooseUrl row (parseUserAgent ua).os)) = true
          · simp only [hc, if_true]
          · have hcf : (!strTruthy (chooseUrl row (parseUserAgent ua).os)) = false := by
              simpa using hc
            simp only [hcf, Bool.false_eq_true, if_false]
  · cases configured with
    | false => rfl
    | true =>
      cases hq : queryActiveLink db sc with
      | none => simp [handleRedirect, hq]
      | some row =>
        by_cases he : isExpired row now = true
        · simp [handleRedirect, hq, he]
        · have hef : isExpired row now = false := by simpa using he
          rw [handleRedirect_found db sc ua xff xrip digest now false row hq hef]
          by_cases hc : (!strTruthy (chooseUrl row (parseUserAgent ua).os)) = true
          · simp [hc]
          · have hcf : (!strTruthy (chooseUrl row (parseUserAgent ua).os)) = false := by
              simpa using hc
            simp [hcf]
  · cases configured with
    | false => rfl
    | true =>
      cases hq : queryActiveLink db sc with
      | none => simp [handleRedirect, hq]
      | some row =>
        by_cases he : isExpired row now = true
        · simp [handleRedirect, hq, he]
        · have hef : isExpired row now = false := by simpa using he
          rw [handleRedirect_found db sc ua xff xrip digest now true row hq hef]
          by_cases hc : (!strTruthy (chooseUrl row (parseUserAgent ua).os)) = true
          · simp [hc]
          · have hcf : (!strTruthy (chooseUrl row (parseUserAgent ua).os)) = false := by
              simpa using hc
            simp [hcf]
  · intro insertFails
    cases configured with
    | false => rfl
    | true =>
      cases hq : queryActiveLink db sc with
      | none => simp [handleRedirect, reachesRecording, hq]
      | some row =>
        by_cases he : isExpired row now = true
        · simp [handleRedirect, reachesRecording, hq, he]
        · have hef : isExpired row now = false := by simpa using he
          rw [handleRedirect_found db sc ua xff xrip digest now insertFails row hq hef]
          have hr : reachesRecording true db sc now = true := by
            simp [reachesRecording, hq, hef]
          by_cases hc : (!strTruthy (chooseUrl row (parseUserAgent ua).os)) = true
          · simp [hc, hr]
          · have hcf : (!strTruthy (chooseUrl row (parseUserAgent ua).os)) = false := by
              simpa using hc
            simp [hcf, hr]
  · simp only [reachesRecording, Bool.and_eq_true]
    constructor
    · rintro ⟨hc, hm⟩
      refine ⟨hc, ?_⟩
      cases hq : queryActiveLink db sc with
      | none => rw [hq] at hm; exact Bool.noConfusion hm
      | some row =>
        rw [hq] at hm
        exact ⟨row, rfl, by simpa using hm⟩
    · rintro ⟨hc, row, hrow, hexp⟩
      exact ⟨hc, by rw [hrow]; simpa using hexp⟩

/-- Witness for C2 (amended): a concrete run whose response is unchanged
when the insert fails. -/
theorem C2_scan_event_recording_witness :
    (handleRedirect true [exLink2] "abc" "iPhone" none none noDigest 0 true).response
      = (handleRedirect true [exLink2] "abc" "iPhone" none none noDigest 0 false).response := by
  exact (C2_scan_event_recording true [exLink2] "abc" "iPhone" none none noDigest 0).1 true

/-- C3: with the store configured and an active link found, a present
expiry strictly before the wall clock yields the 410 expired response,
while an absent expiry, or an expiry at or after the wall clock, never
does. -/
theorem C3_expiry (db : List SparkCodeRow) (sc ua : String) (xff xrip : Option String)
    (digest : String → Option (List (Fin 256))) (now : Int) (insertFails : Bool)
    (row : SparkCodeRow) (hrow : queryActiveLink db sc = some row) :
    (∀ t, row.expires_at = some t → t < now →
      (handleRedirect true db sc ua xff xrip digest now insertFails).response
        = RedirectResponse.expired ∧
      statusOf (handleRedirect true db sc ua xff xrip digest now insertFails).response = 410) ∧
    (row.expires_at = none →
      (handleRedirect true db sc ua xff xrip digest now insertFails).response
        ≠ RedirectResponse.expired) ∧
    (∀ t, row.expires_at = some t → now ≤ t →
      (handleRedirect true db sc ua xff xrip digest now insertFails).response
        ≠ RedirectResponse.expired) := by
  refine ⟨?_, ?_, ?_⟩
  · intro t ht hlt
    have hex : isExpired row now = true := by
      simp [isExpired, ht, hlt]
    simp [handleRedirect, hrow, hex, statusOf]
  · intro ht
    have hex : isExpired row now = false := by
      simp [isExpired, ht]
    rw [handleRedirect_found db sc ua xff xrip digest now insertFails row hrow hex]
    by_cases hc : (!strTruthy (chooseUrl row (parseUserAgent ua).os)) = true
    · simp [hc]
    · have hcf : (!strTruthy (chooseUrl row (parseUserAgent ua).os)) = false := by
        simpa using hc
      simp [hcf]
  · intro t ht hle
    have hex : isExpired row now = false := by
      simp only [isExpired, ht, decide_eq_false_iff_not]
      omega
    rw [handleRedirect_found db sc ua xff xrip digest now insertFails row hrow hex]
    by_cases hc : (!strTruthy (chooseUrl row (parseUserAgent ua).os)) = true
    · simp [hc]
    · have hcf : (!strTruthy (chooseUrl row (parseUserAgent ua).os)) = false := by
        simpa using hc
      simp [hcf]

/-- An expired link: active with an expiry in the past relative to the
wall clock used in the witness. -/
def exLinkExpired : SparkCodeRow :=
  ⟨1, "abc", true, some "https://a.example", none, none, some (-1)⟩

/-- Witness for C3: a link whose expiry lies strictly before the wall
clock is answered 410. -/
theorem C3_expiry_witness :
    queryActiveLink [exLinkExpired] "abc" = some exLinkExpired ∧
    exLinkExpired.expires_at = some (-1) ∧ (-1 : Int) < 0 ∧
    (handleRedirect true [exLinkExpired] "abc" "x" none none noDigest 0 false).response
      = RedirectResponse.expired := by
  refine ⟨by decide, rfl, by decide, ?_⟩
  exact ((C3_expiry [exLinkExpired] "abc" "x" none none noDigest 0 false exLinkExpired
    (by decide)).1 (-1) rfl (by decide)).1

/-- C4: an unconfigured store is answered 503 with a response that does
not depend on the link table (no lookup is consulted); with the store
configured, a lookup finding no unique active row is answered 404, and
in particular when no row at all carries the short code with the active
flag set, the lookup finds nothing. -/
theorem C4_unavailable_and_not_found (db : List SparkCodeRow) (sc ua : String)
    (xff xrip : Option String) (digest : String → Option (List (Fin 256)))
    (now : Int) (insertFails : Bool) :
    ((handleRedirect false db sc ua xff xrip digest now insertFails).response
        = RedirectResponse.serviceUnavailable ∧
      statusOf (handleRedirect false db sc ua xff xrip digest now insertFails).response = 503 ∧
      ∀ db2, handleRedirect false db2 sc ua xff xrip digest now insertFails
        = handleRedirect false db sc ua xff xrip digest now insertFails) ∧
    (queryActiveLink db sc = none →
      (handleRedirect true db sc ua xff xrip digest now insertFails).response
        = RedirectResponse.notFound ∧
      statusOf (handleRedirect true db sc ua xff xrip digest now insertFails).response = 404) ∧
    ((∀ r ∈ db, ¬(r.short_code = sc ∧ r.is_active = true)) → queryActiveLink db sc = none) := by
  refine ⟨⟨rfl, rfl, fun _ => rfl⟩, ?_, ?_⟩
  · intro hnone
    simp [handleRedirect, hnone, statusOf]
  · intro hall
    have hfil : db.filter (fun r => r.short_code == sc && r.is_active) = [] := by
      rw [List.filter_eq_nil_iff]
      intro r hr
      have := hall r hr
      simp only [Bool.and_eq_true, beq_iff_eq]
      intro hcon
      exact this ⟨hcon.1, hcon.2⟩
    simp [queryActiveLink, hfil]

/-- Witness for C4: empty table — nothing matches, 503 when
unconfigured, 404 when configured. -/
theorem C4_unavailable_and_not_found_witness :
    (handleRedirect false [] "z" "x" none none noDigest 0 false).response
      = RedirectResponse.serviceUnavailable ∧
    queryActiveLink [] "z" = none ∧
    (handleRedirect true [] "z" "x" none none noDigest 0 false).response
      = RedirectResponse.notFound := by
  refine ⟨(C4_unavailable_and_not_found [] "z" "x" none none noDigest 0 false).1.1, rfl, ?_⟩
  exact ((C4_unavailable_and_not_found [] "z" "x" none none noDigest 0 false).2.1 rfl).1

/-- Scan-event row as read back by the analytics code
(src/features/scan-events/scan-events-api.ts): nullable timestamp and
grouping fields. -/
structure ScanEvent where
  scanned_at : Option String
  device_type : Option String
  os : Option String
  country : Option String
deriving DecidableEq, Repr

/-- Day bucket key: `ev.scanned_at ? ev.scanned_at.slice(0, 10) :
"unknown"` — truthiness, so both a missing and an empty timestamp bucket
under "unknown". -/
def dayKey (ev : ScanEvent) : String :=
  match ev.scanned_at with
  | some s => if s == "" then "unknown" else String.mk (s.data.take 10)
  | none => "unknown"

/-- Device bucket key: `ev.device_type ?? "Unknown"`. -/
def deviceKey (ev : ScanEvent) : String := ev.device_type.getD "Unknown"

/-- OS bucket key: `ev.os ?? "Unknown"`. -/
def osKey (ev : ScanEvent) : String := ev.os.getD "Unknown"

/-- Country bucket key: `ev.country ?? "Unknown"`. -/
def countryKey (ev : ScanEvent) : String := ev.country.getD "Unknown"

/-- One step of the JS `map[k] = (map[k] ?? 0) + 1` counting object:
increment the entry of `k` (insertion order preserved), appending a
fresh entry when absent. -/
def bumpKey (k : String) : List (String × Nat) → List (String × Nat)
  | [] => [(k, 1)]
  | p :: rest => if p.1 == k then (p.1, p.2 + 1) :: rest else p :: bumpKey k rest

/-- The counting object built by the aggregation loop, as an ordered
association list (JS object string keys keep insertion order). -/
def buildCounts (key : ScanEvent → String) (evs : List ScanEvent) : List (String × Nat) :=
  evs.foldl (fun m ev => bumpKey (key ev) m) []

/-- Count recorded for a key in the association list (0 when absent). -/
def cntOf (m : List (String × Nat)) (k : String) : Nat :=
  match m.find? (fun p => p.1 == k) with
  | some p => p.2
  | none => 0

/-- Lexicographic comparison of character lists by code point: the
meaning of `localeCompare` on the ASCII date strings it is applied to. -/
def charListLe : List Char → List Char → Bool
  | [], _ => true
  | _ :: _, [] => false
  | a :: as, b :: bs => if a < b then true else if b < a then false else charListLe as bs

/-- Comparator of day buckets: ascending by date string. -/
def dayLe (a b : String × Nat) : Bool := charListLe a.1.data b.1.data

/-- Comparator of device/os/country buckets: descending by count (the
JS comparator `b.count - a.count`). -/
def countDescLe (a b : String × Nat) : Bool := decide (b.2 ≤ a.2)

/-- Ordering used by the scan-event query: timestamp descending with
nulls first (Postgres default for descending order). -/
def scanDescLe (a b : ScanEvent) : Bool :=
  match a.scanned_at, b.scanned_at with
  | none, _ => true
  | some _, none => false
  | some s, some t => charListLe t.data s.data

/-- The derived analytics value (src/types ScanAnalytics), with buckets
as (key, count) pairs. -/
structure ScanAnalytics where
  total_scans : Nat
  scans_by_day : List (String × Nat)
  scans_by_device : List (String × Nat)
  scans_by_os : List (String × Nat)
  scans_by_country : List (String × Nat)
deriving DecidableEq, Repr

/-- Embedding of the aggregation loop and the four sorted projections of
`getAnalyticsForCode`, applied to the fetched events. -/
def aggregateEvents (events : List ScanEvent) : ScanAnalytics :=
  { total_scans := events.length
    scans_by_day := (buildCounts dayKey events).mergeSort dayLe
    scans_by_device := (buildCounts deviceKey events).mergeSort countDescLe
    scans_by_os := (buildCounts osKey events).mergeSort countDescLe
    scans_by_country := (buildCounts countryKey events).mergeSort countDescLe }

/-- The scan-event query the store executes: order by scanned_at
descending, limit 500. -/
def queryScans (scanDb : List ScanEvent) : List ScanEvent :=
  (scanDb.mergeSort scanDescLe).take 500

/-- The ownership check of `getScanEventsForCode`: select the spark_codes
row whose id and user_id both match (`single()` requires exactly one). -/
def ownerLookup (sparkDb : List (Nat × String)) (sparkCodeId : Nat) (userId : String) :
    Option Nat :=
  match sparkDb.filter (fun r => r.1 == sparkCodeId && r.2 == userId) with
  | [r] => some r.1
  | _ => none

/-- Embedding of `getScanEventsForCode`
(src/features/scan-events/scan-events-api.ts): empty list when the store
is unconfigured, no user is signed in, the code is not owned by the
user, or the scan query errors; otherwise the rows the query returned.
`scanResult` models the `{ data, error }` of the scan-events select. -/
def getScanEventsForCode (configured : Bool) (userId : Option String)
    (sparkDb : List (Nat × String)) (sparkCodeId : Nat)
    (scanResult : Except String (List ScanEvent)) : List ScanEvent :=
  if !configured then []
  else
    match userId with
    | none => []
    | some uid =>
      match ownerLookup sparkDb sparkCodeId uid with
      | none => []
      | some _ =>
        match scanResult with
        | .error _ => []
        | .ok evs => evs

/-- Embedding of `getAnalyticsForCode`: aggregate whatever
`getScanEventsForCode` returned. -/
def getAnalyticsForCode (configured : Bool) (userId : Option String)
    (sparkDb : List (Nat × String)) (sparkCodeId : Nat)
    (scanResult : Except String (List ScanEvent)) : ScanAnalytics :=
  aggregateEvents (getScanEventsForCode configured userId sparkDb sparkCodeId scanResult)

/-- The analytics value of an empty event list. -/
def emptyAnalytics : ScanAnalytics := ⟨0, [], [], [], []⟩

/-- Lexicographic comparison is total. -/
theorem charListLe_total : ∀ a b : List Char, (charListLe a b || charListLe b a) = true := by
  intro a
  induction a with
  | nil =>
    intro b
    simp [charListLe]
  | cons x xs ih =>
    intro b
    cases b with
    | nil => simp [charListLe]
    | cons y ys =>
      simp only [charListLe]
      rcases lt_trichotomy x y with h | h | h
      · simp [h]
      · subst h
        simp only [lt_irrefl, if_false]
        exact ih ys
      · simp [h, not_lt.mpr (le_of_lt h)]

/-- Lexicographic comparison is transitive. -/
theorem charListLe_trans :
    ∀ a b c : List Char, charListLe a b = true → charListLe b c = true →
      charListLe a c = true := by
  intro a
  induction a with
  | nil =>
    intro b c _ _
    simp [charListLe]
  | cons x xs ih =>
    intro b c h1 h2
    cases b with
    | nil => exact absurd h1 (by simp [charListLe])
    | cons y ys =>
      cases c with
      | nil => exact absurd h2 (by simp [charListLe])
      | cons z zs =>
        simp only [charListLe] at h1 h2 ⊢
        by_cases hxy : x < y
        · by_cases hyz : y < z
          · simp [lt_trans hxy hyz]
          · by_cases hzy : z < y
            · rw [if_neg hyz, if_pos hzy] at h2
              exact Bool.noConfusion h2
            · have hyz2 : y = z := le_antisymm (not_lt.mp hzy) (not_lt.mp hyz)
              subst hyz2
              simp [hxy]
        · by_cases hyx : y < x
          · rw [if_neg hxy, if_pos hyx] at h1
            exact Bool.noConfusion h1
          · have hxy2 : x = y := le_antisymm (not_lt.mp hyx) (not_lt.mp hxy)
            subst hxy2
            rw [if_neg hxy, if_neg hyx] at h1
            by_cases hyz : x < z
            · simp [hyz]
            · by_cases hzy : z < x
              · rw [if_neg hyz, if_pos hzy] at h2
                exact Bool.noConfusion h2
              · have hyz2 : x = z := le_antisymm (not_lt.mp hzy) (not_lt.mp hyz)
                subst hyz2
                rw [if_neg hyz, if_neg hyz]
                rw [if_neg hyz, if_neg hyz] at h2
                exact ih ys zs h1 h2

/-- The day-bucket comparator is transitive. -/
theorem dayLe_trans (a b c : String × Nat) (h1 : dayLe a b = true) (h2 : dayLe b c = true) :
    dayLe a c = true :=
  charListLe_trans _ _ _ h1 h2

/-- The day-bucket comparator is total. -/
theorem dayLe_total (a b : String × Nat) : (dayLe a b || dayLe b a) = true :=
  charListLe_total _ _

/-- The count-descending comparator is transitive. -/
theorem countDescLe_trans (a b c : String × Nat)
    (h1 : countDescLe a b = true) (h2 : countDescLe b c = true) : countDescLe a c = true := by
  simp only [countDescLe, decide_eq_true_eq] at h1 h2 ⊢
  omega

/-- The count-descending comparator is total. -/
theorem countDescLe_total (a b : String × Nat) : (countDescLe a b || countDescLe b a) = true := by
  simp only [countDescLe, Bool.or_eq_true, decide_eq_true_eq]
  omega

/-- The timestamp-descending comparator is transitive. -/
theorem scanDescLe_trans (a b c : ScanEvent)
    (h1 : scanDescLe a b = true) (h2 : scanDescLe b c = true) : scanDescLe a c = true := by
  cases ha : a.scanned_at with
  | none => simp [scanDescLe, ha]
  | some s =>
    cases hb : b.scanned_at with
    | none =>
      rw [scanDescLe, ha, hb] at h1
      exact Bool.noConfusion h1
    | some t =>
      cases hc : c.scanned_at with
      | none =>
        rw [scanDescLe, hb, hc] at h2
        exact Bool.noConfusion h2
      | some u =>
        rw [scanDescLe, ha, hb] at h1
        rw [scanDescLe, hb, hc] at h2
        rw [scanDescLe, ha, hc]
        exact charListLe_trans _ _ _ h2 h1

/-- The timestamp-descending comparator is total. -/
theorem scanDescLe_total (a b : ScanEvent) : (scanDescLe a b || scanDescLe b a) = true := by
  cases ha : a.scanned_at with
  | none => simp [scanDescLe, ha]
  | some s =>
    cases hb : b.scanned_at with
    | none => simp [scanDescLe, ha, hb]
    | some t =>
      simp only [scanDescLe, ha, hb]
      exact charListLe_total t.data s.data

/-- Bumping a key increments its recorded count. -/
theorem cntOf_bumpKey_same (k : String) (m : List (String × Nat)) :
    cntOf (bumpKey k m) k = cntOf m k + 1 := by
  induction m with
  | nil => simp [bumpKey, cntOf, List.find?]
  | cons p rest ih =>
    by_cases h : p.1 == k
    · simp [bumpKey, cntOf, List.find?, h]
    · simp only [bumpKey, h, Bool.false_eq_true, if_false]
      simp only [cntOf, List.find?, h] at ih ⊢
      exact ih

/-- Bumping a key leaves other keys' recorded counts unchanged. -/
theorem cntOf_bumpKey_ne (k k2 : String) (hne : ¬k2 = k) (m : List (String × Nat)) :
    cntOf (bumpKey k m) k2 = cntOf m k2 := by
  induction m with
  | nil =>
    simp only [bumpKey, cntOf, List.find?]
    have : (k == k2) = false := by
      simp only [beq_eq_false_iff_ne, ne_eq]
      intro h
      exact hne h.symm
    simp [this]
  | cons p rest ih =>
    by_cases h : p.1 == k
    · have hpk : p.1 = k := by simpa using h
      have hp2 : (p.1 == k2) = false := by
        simp only [beq_eq_false_iff_ne, ne_eq, hpk]
        intro h2
        exact hne h2.symm
      simp [bumpKey, cntOf, List.find?, h, hp2]
    · simp only [bumpKey, h, Bool.false_eq_true, if_false]
      by_cases hp2 : p.1 == k2
      · simp [cntOf, List.find?, hp2]
      · simp only [cntOf, List.find?, hp2] at ih ⊢
        exact ih

/-- Folding the counting step starting from `m` adds, for every key, the
number of events with that key. -/
theorem foldl_bump_cntOf (key : ScanEvent → String) :
    ∀ (evs : List ScanEvent) (m : List (String × Nat)) (k : String),
      cntOf (evs.foldl (fun acc ev => bumpKey (key ev) acc) m) k
        = cntOf m k + (evs.filter (fun e => key e == k)).length := by
  intro evs
  induction evs with
  | nil =>
    intro m k
    simp
  | cons e es ih =>
    intro m k
    simp only [List.foldl_cons, List.filter_cons]
    by_cases h : key e == k
    · have hk : key e = k := by simpa using h
      rw [ih, hk, cntOf_bumpKey_same]
      simp only [beq_self_eq_true, if_true, List.length_cons]
      omega
    · have hk : ¬k = key e := by
        intro h2
        rw [h2] at h
        exact h (by simp)
      rw [ih, cntOf_bumpKey_ne (key e) k hk]
      simp only [h, Bool.false_eq_true, if_false]

/-- The counting object records, for every key, exactly the number of
events with that key. -/
theorem buildCounts_cntOf (key : ScanEvent → String) (evs : List ScanEvent) (k : String) :
    cntOf (buildCounts key evs) k = (evs.filter (fun e => key e == k)).length := by
  have := foldl_bump_cntOf key evs [] k
  simpa [buildCounts, cntOf, List.find?] using this

/-- Bumping a key already present leaves the key list unchanged. -/
theorem keys_bumpKey_mem (k : String) (m : List (String × Nat))
    (h : k ∈ m.map Prod.fst) : (bumpKey k m).map Prod.fst = m.map Prod.fst := by
  induction m with
  | nil => cases h
  | cons p rest ih =>
    by_cases hp : p.1 == k
    · simp [bumpKey, hp]
    · have hk : k ∈ rest.map Prod.fst := by
        rcases List.mem_map.mp h with ⟨q, hq, hq2⟩
        rcases List.mem_cons.mp hq with rfl | hq3
        · exact absurd (by simp [hq2]) hp
        · exact List.mem_map.mpr ⟨q, hq3, hq2⟩
      simp [bumpKey, hp, ih hk]

/-- Bumping an absent key appends it to the key list. -/
theorem keys_bumpKey_not_mem (k : String) (m : List (String × Nat))
    (h : ¬k ∈ m.map Prod.fst) :
    (bumpKey k m).map Prod.fst = m.map Prod.fst ++ [k] := by
  induction m with
  | nil => simp [bumpKey]
  | cons p rest ih =>
    have hp : ¬(p.1 == k) = true := by
      intro hp2
      exact h (List.mem_map.mpr ⟨p, List.mem_cons_self p rest, by simpa using hp2⟩)
    have hr : ¬k ∈ rest.map Prod.fst := by
      intro h2
      rcases List.mem_map.mp h2 with ⟨q, hq, hq2⟩
      exact h (List.mem_map.mpr ⟨q, List.mem_cons_of_mem p hq, hq2⟩)
    simp [bumpKey, hp, ih hr]

/-- Bumping preserves distinctness of keys. -/
theorem nodup_keys_bumpKey (k : String) (m : List (String × Nat))
    (h : (m.map Prod.fst).Nodup) : ((bumpKey k m).map Prod.fst).Nodup := by
  by_cases hm : k ∈ m.map Prod.fst
  · rw [keys_bumpKey_mem k m hm]
    exact h
  · rw [keys_bumpKey_not_mem k m hm]
    simp only [List.nodup_append, List.nodup_cons, List.not_mem_nil, not_false_iff,
      List.nodup_nil, and_true, true_and]
    constructor
    · exact h
    · intro a ha
      simp only [List.mem_singleton]
      intro h2
      rw [h2] at ha
      exact hm ha

/-- The counting object has distinct keys. -/
theorem nodup_keys_buildCounts (key : ScanEvent → String) (evs : List ScanEvent) :
    ((buildCounts key evs).map Prod.fst).Nodup := by
  suffices h : ∀ (l : List ScanEvent) (m : List (String × Nat)),
      (m.map Prod.fst).Nodup → ((l.foldl (fun acc ev => bumpKey (key ev) acc) m).map Prod.fst).Nodup by
    exact h evs [] (by simp)
  intro l
  induction l with
  | nil =>
    intro m hm
    simpa using hm
  | cons e es ih =>
    intro m hm
    simp only [List.foldl_cons]
    exact ih _ (nodup_keys_bumpKey (key e) m hm)

/-- In an association list with distinct keys, a member's recorded count
is its own second component. -/
theorem mem_cntOf (m : List (String × Nat)) (hnd : (m.map Prod.fst).Nodup)
    (p : String × Nat) (hp : p ∈ m) : cntOf m p.1 = p.2 := by
  induction m with
  | nil => cases hp
  | cons q rest ih =>
    rcases List.mem_cons.mp hp with rfl | hp2
    · simp [cntOf, List.find?]
    · have hq : ¬(q.1 == p.1) = true := by
        intro hq2
        have hq3 : q.1 = p.1 := by simpa using hq2
        have : q.1 ∈ rest.map Prod.fst := by
          rw [hq3]
          exact List.mem_map.mpr ⟨p, hp2, rfl⟩
        exact (List.nodup_cons.mp (by simpa using hnd)).1 this
      simp only [cntOf, List.find?, hq] at ih ⊢
      have hnd2 : (rest.map Prod.fst).Nodup := (List.nodup_cons.mp (by simpa using hnd)).2
      have := ih hnd2 hp2
      simp only [hq, Bool.false_eq_true, if_false] at this ⊢
      exact this

/-- A key with a nonzero recorded count appears in the key list. -/
theorem cntOf_pos_mem_keys (m : List (String × Nat)) (k : String)
    (h : cntOf m k ≠ 0) : k ∈ m.map Prod.fst := by
  unfold cntOf at h
  cases hf : m.find? (fun p => p.1 == k) with
  | none =>
    rw [hf] at h
    exact absurd rfl h
  | some p =>
    have hpk : p.1 = k := by
      have := List.find?_some hf
      simpa using this
    have hpm : p ∈ m := List.mem_of_find?_eq_some hf
    rw [← hpk]
    exact List.mem_map.mpr ⟨p, hpm, rfl⟩

/-- Characterization of one sorted bucket list: every entry's count is
the number of fetched events with that key, keys are distinct, and every
fetched event's key appears. -/
theorem bucket_spec (key : ScanEvent → String) (le : (String × Nat) → (String × Nat) → Bool)
    (evs : List ScanEvent) :
    (∀ p ∈ (buildCounts key evs).mergeSort le,
      p.2 = (evs.filter (fun e => key e == p.1)).length) ∧
    (((buildCounts key evs).mergeSort le).map Prod.fst).Nodup ∧
    (∀ e ∈ evs, key e ∈ ((buildCounts key evs).mergeSort le).map Prod.fst) := by
  have hperm := List.mergeSort_perm (buildCounts key evs) le
  have hnd := nodup_keys_buildCounts key evs
  refine ⟨?_, ?_, ?_⟩
  · intro p hp
    have hp2 : p ∈ buildCounts key evs := hperm.mem_iff.mp hp
    have h1 := mem_cntOf _ hnd p hp2
    rw [← h1, buildCounts_cntOf]
  · exact (hperm.map Prod.fst).nodup_iff.mpr hnd
  · intro e he
    have hpos : cntOf (buildCounts key evs) (key e) ≠ 0 := by
      rw [buildCounts_cntOf]
      intro h0
      rw [List.length_eq_zero] at h0
      have : e ∈ evs.filter (fun x => key x == key e) :=
        List.mem_filter.mpr ⟨he, by simp⟩
      rw [h0] at this
      cases this
    exact ((hperm.map Prod.fst).mem_iff).mpr (cntOf_pos_mem_keys _ _ hpos)

/-- C8: with the store configured, a signed-in owner, and the scan query
returning its ordered capped window, the analytics value counts exactly
the fetched events: at most 500 events are read, in timestamp-descending
order; total_scans is the number fetched; day buckets are sorted
ascending by date string and count the events with that day key (the
date portion of the timestamp, "unknown" when missing); device, OS and
country buckets are sorted descending by count and count the events with
that key ("Unknown" when the field is null). -/
theorem C8_analytics_aggregation (scanDb : List ScanEvent) (sparkDb : List (Nat × String))
    (sparkCodeId : Nat) (uid : String) (x : Nat)
    (hown : ownerLookup sparkDb sparkCodeId uid = some x) :
    (getAnalyticsForCode true (some uid) sparkDb sparkCodeId
        (Except.ok (queryScans scanDb))).total_scans = (queryScans scanDb).length ∧
    (queryScans scanDb).length ≤ 500 ∧
    List.Pairwise (fun a b => scanDescLe a b = true) (queryScans scanDb) ∧
    List.Pairwise (fun p q => dayLe p q = true)
      (getAnalyticsForCode true (some uid) sparkDb sparkCodeId
        (Except.ok (queryScans scanDb))).scans_by_day ∧
    (∀ p ∈ (getAnalyticsForCode true (some uid) sparkDb sparkCodeId
        (Except.ok (queryScans scanDb))).scans_by_day,
      p.2 = ((queryScans scanDb).filter (fun e => dayKey e == p.1)).length) ∧
    ((getAnalyticsForCode true (some uid) sparkDb sparkCodeId
        (Except.ok (queryScans scanDb))).scans_by_day.map Prod.fst).Nodup ∧
    (∀ e ∈ queryScans scanDb, dayKey e ∈ (getAnalyticsForCode true (some uid) sparkDb
        sparkCodeId (Except.ok (queryScans scanDb))).scans_by_day.map Prod.fst) ∧
    (List.Pairwise (fun p q : String × Nat => q.2 ≤ p.2)
        (getAnalyticsForCode true (some uid) sparkDb sparkCodeId
          (Except.ok (queryScans scanDb))).scans_by_device ∧
      (∀ p ∈ (getAnalyticsForCode true (some uid) sparkDb sparkCodeId
          (Except.ok (queryScans scanDb))).scans_by_device,
        p.2 = ((queryScans scanDb).filter (fun e => deviceKey e == p.1)).length) ∧
      (∀ e ∈ queryScans scanDb, deviceKey e ∈ (getAnalyticsForCode true (some uid) sparkDb
          sparkCodeId (Except.ok (queryScans scanDb))).scans_by_device.map Prod.fst)) ∧
    (List.Pairwise (fun p q : String × Nat => q.2 ≤ p.2)
        (getAnalyticsForCode true (some uid) sparkDb sparkCodeId
          (Except.ok (queryScans scanDb))).scans_by_os ∧
      (∀ p ∈ (getAnalyticsForCode true (some uid) sparkDb sparkCodeId
          (Except.ok (queryScans scanDb))).scans_by_os,
        p.2 = ((queryScans scanDb).filter (fun e => osKey e == p.1)).length) ∧
      (∀ e ∈ queryScans scanDb, osKey e ∈ (getAnalyticsForCode true (some uid) sparkDb
          sparkCodeId (Except.ok (queryScans scanDb))).scans_by_os.map Prod.fst)) ∧
    (List.Pairwise (fun p q : String × Nat => q.2 ≤ p.2)
        (getAnalyticsForCode true (some uid) sparkDb sparkCodeId
          (Except.ok (queryScans scanDb))).scans_by_country ∧
      (∀ p ∈ (getAnalyticsForCode true (some uid) sparkDb sparkCodeId
          (Except.ok (queryScans scanDb))).scans_by_country,
        p.2 = ((queryScans scanDb).filter (fun e => countryKey e == p.1)).length) ∧
      (∀ e ∈ queryScans scanDb, countryKey e ∈ (getAnalyticsForCode true (some uid) sparkDb
          sparkCodeId (Except.ok (queryScans scanDb))).scans_by_country.map Prod.fst)) ∧
    ((∀ e : ScanEvent, e.scanned_at = none → dayKey e = "unknown") ∧
      (∀ e : ScanEvent, e.device_type = none → deviceKey e = "Unknown") ∧
      (∀ e : ScanEvent, e.os = none → osKey e = "Unknown") ∧
      (∀ e : ScanEvent, e.country = none → countryKey e = "Unknown")) := by
  have hget : getScanEventsForCode true (some uid) sparkDb sparkCodeId
      (Except.ok (queryScans scanDb)) = queryScans scanDb := by
    simp [getScanEventsForCode, hown]
  have hana : getAnalyticsForCode true (some uid) sparkDb sparkCodeId
      (Except.ok (queryScans scanDb)) = aggregateEvents (queryScans scanDb) := by
    rw [getAnalyticsForCode, hget]
  rw [hana]
  have hday := bucket_spec dayKey dayLe (queryScans scanDb)
  have hdev := bucket_spec deviceKey countDescLe (queryScans scanDb)
  have hos := bucket_spec osKey countDescLe (queryScans scanDb)
  have hcountry := bucket_spec countryKey countDescLe (queryScans scanDb)
  have hdescsorted : List.Pairwise (fun p q : String × Nat => q.2 ≤ p.2)
      ((buildCounts deviceKey (queryScans scanDb)).mergeSort countDescLe) := by
    have := List.sorted_mergeSort countDescLe_trans countDescLe_total
      (buildCounts deviceKey (queryScans scanDb))
    exact this.imp (fun h => by simpa [countDescLe] using h)
  have hossorted : List.Pairwise (fun p q : String × Nat => q.2 ≤ p.2)
      ((buildCounts osKey (queryScans scanDb)).mergeSort countDescLe) := by
    have := List.sorted_mergeSort countDescLe_trans countDescLe_total
      (buildCounts osKey (queryScans scanDb))
    exact this.imp (fun h => by simpa [countDescLe] using h)
  have hcsorted : List.Pairwise (fun p q : String × Nat => q.2 ≤ p.2)
      ((buildCounts countryKey (queryScans scanDb)).mergeSort countDescLe) := by
    have := List.sorted_mergeSort countDescLe_trans countDescLe_total
      (buildCounts countryKey (queryScans scanDb))
    exact this.imp (fun h => by simpa [countDescLe] using h)
  refine ⟨rfl, ?_, ?_, ?_, hday.1, hday.2.1, hday.2.2, ⟨hdescsorted, hdev.1, hdev.2.2⟩,
    ⟨hossorted, hos.1, hos.2.2⟩, ⟨hcsorted, hcountry.1, hcountry.2.2⟩,
    fun e h => by simp [dayKey, h], fun e h => by simp [deviceKey, h],
    fun e h => by simp [osKey, h], fun e h => by simp [countryKey, h]⟩
  · exact List.length_take_le 500 _
  · exact List.Pairwise.sublist (List.take_sublist 500 _)
      (List.sorted_mergeSort scanDescLe_trans scanDescLe_total scanDb)
  · exact List.sorted_mergeSort dayLe_trans dayLe_total (buildCounts dayKey (queryScans scanDb))

/-- A concrete scan-events table for the C8 witness. -/
def exScanDb : List ScanEvent :=
  [⟨some "2024-01-01T00:00:00Z", some "Mobile", some "iOS", none⟩,
   ⟨some "2024-01-02T00:00:00Z", none, some "Android", some "DE"⟩]

/-- Witness for C8: a concrete owner-scoped run where the ownership
lookup succeeds. -/
theorem C8_analytics_aggregation_witness :
    ownerLookup [(1, "u")] 1 "u" = some 1 ∧
    (getAnalyticsForCode true (some "u") [(1, "u")] 1
        (Except.ok (queryScans exScanDb))).total_scans = (queryScans exScanDb).length := by
  refine ⟨rfl, ?_⟩
  exact (C8_analytics_aggregation exScanDb [(1, "u")] 1 "u" 1 rfl).1

/-- Aggregating no events yields the empty analytics value. -/
theorem aggregateEvents_nil : aggregateEvents [] = emptyAnalytics := by
  simp [aggregateEvents, buildCounts, emptyAnalytics]

/-- C10: the analytics call never throws (it is a total function) and
returns the empty analytics value whenever the store is unconfigured, no
user is signed in, the link is not owned by the user, or the scan query
errors. -/
theorem C10_analytics_guards (configured : Bool) (userId : Option String)
    (sparkDb : List (Nat × String)) (sparkCodeId : Nat)
    (scanResult : Except String (List ScanEvent)) :
    (configured = false →
      getAnalyticsForCode configured userId sparkDb sparkCodeId scanResult = emptyAnalytics) ∧
    (userId = none →
      getAnalyticsForCode configured userId sparkDb sparkCodeId scanResult = emptyAnalytics) ∧
    (∀ uid, userId = some uid → ownerLookup sparkDb sparkCodeId uid = none →
      getAnalyticsForCode configured userId sparkDb sparkCodeId scanResult = emptyAnalytics) ∧
    (∀ e, scanResult = Except.error e →
      getAnalyticsForCode configured userId sparkDb sparkCodeId scanResult = emptyAnalytics) := by
  refine ⟨?_, ?_, ?_, ?_⟩
  · intro h
    subst h
    exact aggregateEvents_nil
  · intro h
    subst h
    cases configured with
    | false => exact aggregateEvents_nil
    | true => exact aggregateEvents_nil
  · intro uid h hown
    subst h
    cases configured with
    | false => exact aggregateEvents_nil
    | true =>
      show aggregateEvents (getScanEventsForCode true (some uid) sparkDb sparkCodeId
        scanResult) = emptyAnalytics
      rw [show getScanEventsForCode true (some uid) sparkDb sparkCodeId scanResult = [] by
        simp [getScanEventsForCode, hown]]
      exact aggregateEvents_nil
  · intro e h
    subst h
    cases configured with
    | false => exact aggregateEvents_nil
    | true =>
      cases userId with
      | none => exact aggregateEvents_nil
      | some uid =>
        show aggregateEvents (getScanEventsForCode true (some uid) sparkDb sparkCodeId
          (Except.error e)) = emptyAnalytics
        cases hown : ownerLookup sparkDb sparkCodeId uid with
        | none =>
          rw [show getScanEventsForCode true (some uid) sparkDb sparkCodeId
              (Except.error e) = [] by simp [getScanEventsForCode, hown]]
          exact aggregateEvents_nil
        | some x =>
          rw [show getScanEventsForCode true (some uid) sparkDb sparkCodeId
              (Except.error e) = [] by simp [getScanEventsForCode, hown]]
          exact aggregateEvents_nil

/-- Witness for C10: the unconfigured store yields the empty analytics
value. -/
theorem C10_analytics_guards_witness :
    getAnalyticsForCode false none [] 0 (Except.ok []) = emptyAnalytics := by
  exact (C10_analytics_guards false none [] 0 (Except.ok [])).1 rfl

end CreatorShelf
